import Mathlib

/-!
Shallow embedding of the `uniqueizer` backend (FastAPI video-uniquifier
service): the per-copy parameter generator and ffmpeg command builder
(`app/services/uniquifier.py`), the task orchestration loop, archive
builder and retention sweep (`app/services/video_processor.py`), and the
HTTP endpoint handlers that manipulate task state
(`app/main.py`).  Timestamps are modelled as rationals (seconds since
epoch, resp. hours for the sweep threshold); Python's seeded Mersenne
Twister is abstracted as a function from the seed to the record of draws
the generator performs after `random.seed(copy_number)`; SHA-256 hex is
abstracted as a function on the hashed string.
-/

namespace Uniqueizer

/-! ### `app/services/uniquifier.py` -/

/-- The pseudo-random draws `_generate_unique_params` (and the two
`random.uniform(-0.5, 0.5)` calls in `_build_ffmpeg_command`) perform,
in order, after `random.seed(copy_number)`.  Index draws model
`random.choice` (reduced mod the list length), `*U` fields are unit
draws in `[0,1]` modelling `random.uniform`, `*N` fields model
`random.randint` (reduced into the closed range). -/
structure RandomDraws where
  fpsIdx : Nat
  fpsOffU : Rat
  crfN : Nat
  presetIdx : Nat
  scaleU : Rat
  gopN : Nat
  bitrateIdx : Nat
  volumeU : Rat
  hashU : Rat
  pixFmtIdx : Nat
  bFramesN : Nat
  refFramesN : Nat
  shiftXU : Rat
  shiftYU : Rat
deriving DecidableEq, Repr

/-- Model of `random.choice(l)` given an index draw. -/
def choose (l : List α) (d : α) (i : Nat) : α :=
  l.getD (i % l.length) d

/-- Model of `random.uniform(a, b)` given a unit draw `u ∈ [0,1]`. -/
def uniform (a b u : Rat) : Rat := a + u * (b - a)

/-- Model of `random.randint(a, b)` (inclusive bounds) given a draw. -/
def randint (a b n : Nat) : Nat := a + n % (b - a + 1)

/-- The dictionary returned by `_generate_unique_params`. -/
structure Recipe where
  fps : Rat
  crf : Nat
  preset : String
  scaleFactor : Rat
  gopSize : Nat
  audioBitrate : String
  audioVolume : Rat
  creationTime : Rat
  uniqueId : String
  copyNumber : Nat
  encoderTag : String
  pixelFormat : String
  bFrames : Nat
  refFrames : Nat
deriving DecidableEq, Repr

def fpsVariations : List Rat :=
  [23976/1000, 24, 25, 2997/100, 30, 3001/100, 50, 5994/100, 60]

def presetOptions : List String := ["slower", "slow", "medium"]

def audioBitrateOptions : List String := ["192k", "256k", "320k"]

def pixelFormatOptions : List String := ["yuv420p", "yuv420p10le"]

/-- Zero-padding to width 3, Python's `f"{i:03d}"` for `0 ≤ i ≤ 999`. -/
def pad3 (i : Nat) : String :=
  let s := toString i
  if s.length < 3 then String.mk (List.replicate (3 - s.length) '0') ++ s else s

/-- Embedding of `VideoUniquifier._generate_unique_params(copy_number, total_copies)`.
`rng` maps the seed (the copy number, per `random.seed(copy_number)`) to
the subsequent draws; `sha256hex` abstracts `hashlib.sha256(...).hexdigest()`;
`clock` is the value of `datetime.now().timestamp()` at the call.
`datetime.fromtimestamp(ts).isoformat()` is modelled by the timestamp
value itself (`fromtimestamp` and `isoformat` are injective). -/
def generateUniqueParams (rng : Nat → RandomDraws) (sha256hex : String → String)
    (clock : Rat) (copyNumber totalCopies : Nat) : Recipe :=
  let r := rng copyNumber
  let fpsBase := choose fpsVariations 0 r.fpsIdx
  let fpsOffset := uniform (-1/1000) (1/1000) r.fpsOffU
  let crfVariation := randint 17 23 r.crfN
  let preset := choose presetOptions "" r.presetIdx
  let scaleFactor := 1 + uniform (-5/1000) (5/1000) r.scaleU
  let gopSize := randint 240 260 r.gopN
  let audioBitrate := choose audioBitrateOptions "" r.bitrateIdx
  let audioVolume := 1 + uniform (-3/1000) (3/1000) r.volumeU
  let timestamp := clock + (copyNumber : Rat)
  let uniqueId := sha256hex
    (toString copyNumber ++ "_" ++ toString timestamp ++ "_" ++ toString r.hashU)
  { fps := fpsBase + fpsOffset
    crf := crfVariation
    preset := preset
    scaleFactor := scaleFactor
    gopSize := gopSize
    audioBitrate := audioBitrate
    audioVolume := audioVolume
    creationTime := timestamp
    uniqueId := uniqueId
    copyNumber := copyNumber
    encoderTag := "UniqueEncoder_v" ++ toString copyNumber
    pixelFormat := choose pixelFormatOptions "" r.pixFmtIdx
    bFrames := randint 2 4 r.bFramesN
    refFrames := randint 3 5 r.refFramesN }

def scaleFilter (s : Rat) : String :=
  "scale=iw*" ++ toString s ++ ":ih*" ++ toString s ++ ":flags=lanczos"

def cropFilter (x y : Rat) : String :=
  "crop=iw-1:ih-1:" ++ toString x ++ ":" ++ toString y

def padFilter : String := "pad=iw+1:ih+1:0:0"

/-- The `video_filters` list assembled in `_build_ffmpeg_command`:
optional sub-pixel scale (kept only when `abs(scale_factor - 1.0) > 0.0001`),
then the 1-pixel crop at a random sub-pixel offset, then the pad back to
the original size. -/
def buildVideoFilters (scaleFactor shiftX shiftY : Rat) : List String :=
  let v0 : List String := []
  let v1 := if |scaleFactor - 1| > 1/10000 then v0 ++ [scaleFilter scaleFactor] else v0
  let v2 := v1 ++ [cropFilter shiftX shiftY]
  v2 ++ [padFilter]

/-- Embedding of `VideoUniquifier._build_ffmpeg_command(input_path, output_path, params)`.
`shiftX`/`shiftY` are the two `random.uniform(-0.5, 0.5)` draws made at
this point of the stream. -/
def buildFfmpegCommand (input output : String) (p : Recipe)
    (shiftX shiftY : Rat) : List String :=
  let videoFilters := buildVideoFilters p.scaleFactor shiftX shiftY
  ["ffmpeg", "-i", input, "-y"]
    ++ (if videoFilters ≠ [] then ["-vf", String.intercalate "," videoFilters] else [])
    ++ ["-c:v", "libx264",
        "-preset", p.preset,
        "-crf", toString p.crf,
        "-g", toString p.gopSize,
        "-bf", toString p.bFrames,
        "-refs", toString p.refFrames,
        "-pix_fmt", p.pixelFormat]
    ++ ["-r", toString p.fps]
    ++ ["-c:a", "aac",
        "-b:a", p.audioBitrate,
        "-af", "volume=" ++ toString p.audioVolume]
    ++ ["-metadata", "creation_time=" ++ toString p.creationTime,
        "-metadata", "encoder=" ++ p.encoderTag,
        "-metadata", "comment=Unique_Copy_" ++ toString p.copyNumber,
        "-metadata", "unique_id=" ++ p.uniqueId,
        "-metadata", "title=Video_" ++ pad3 p.copyNumber]
    ++ ["-movflags", "+faststart", "-fflags", "+genpts"]
    ++ [output]

/-! ### `app/services/video_processor.py` — task records and the
orchestration loop `_process_task` -/

inductive TaskStatus
  | processing
  | completed
  | failed
deriving DecidableEq, Repr

/-- One entry of `VideoProcessor.active_tasks` (the dict created in
`process_video` and mutated by `_process_task`).  The optional dict keys
`archive` and `error` are `Option` fields (`none` = key absent). -/
structure Task where
  status : TaskStatus
  progress : Nat
  total : Nat
  files : List String
  createdAt : Rat
  lastAccessed : Rat
  archive : Option String
  error : Option String
deriving DecidableEq, Repr

/-- The record `process_video` installs before spawning `_process_task`. -/
def initialTask (total : Nat) (now : Rat) : Task :=
  { status := .processing, progress := 0, total := total, files := []
    createdAt := now, lastAccessed := now, archive := none, error := none }

/-- Python's `f"video_{i:03d}.{output_format}"`. -/
def outputFilename (i : Nat) (fmt : String) : String :=
  "video_" ++ pad3 i ++ "." ++ fmt

/-- One iteration of the `for i in range(1, copies_count + 1)` loop in
`_process_task`: on success (`create_unique_copy` returned true and the
output file exists, both folded into the oracle `encodeOk i`) the
filename is appended to `created_files` (mirrored by `files`, which the
loop assigns from `created_files` each iteration); in either case
`progress` is set to `i` and `last_accessed` refreshed.  `now` abstracts
the per-iteration `datetime.now()` reads as one run-clock value. -/
def attemptCopy (encodeOk : Nat → Bool) (fmt : String) (now : Rat)
    (t : Task) (i : Nat) : Task :=
  let t1 := if encodeOk i then { t with files := t.files ++ [outputFilename i fmt] } else t
  { t1 with progress := i, lastAccessed := now }

/-- The per-copy loop of `_process_task`, run over `i = 1 .. total`. -/
def copyLoop (encodeOk : Nat → Bool) (fmt : String) (now : Rat)
    (total : Nat) (t : Task) : Task :=
  (List.range' 1 total).foldl (attemptCopy encodeOk fmt now) t

/-- Python's `f"videos_{task_id}.zip"` — the archive name `_create_archive` uses. -/
def archiveFilename (taskId : String) : String :=
  "videos_" ++ taskId ++ ".zip"

/-- Embedding of `_process_task` along its no-exception path: run the per-copy loop;
if any file was created, try the archive (`archiveOk` = "`_create_archive`
returned a path and it exists"; on success record its name); then mark
the task completed.  Exceptions escaping this path are modelled by
`processTaskExc`. -/
def processTask (encodeOk : Nat → Bool) (archiveOk : Bool)
    (taskId fmt : String) (now : Rat) (t : Task) : Task :=
  let t1 := copyLoop encodeOk fmt now t.total t
  let t2 := if t1.files ≠ [] ∧ archiveOk
            then { t1 with archive := some (archiveFilename taskId) } else t1
  { t2 with status := .completed, lastAccessed := now }

/-- The `except Exception` handler of `_process_task`: whatever partial
state `t` the task record holds when the exception `e` propagates, the
record is updated to `failed` with the exception text. -/
def processTaskExc (e : String) (now : Rat) (t : Task) : Task :=
  { t with status := .failed, error := some e, lastAccessed := now }

/-- The member-selection loop of `_create_archive.create_zip`: each
listed filename is written into the zip iff it still exists in the task
directory (`dir`, an association list of filename to byte size). -/
def zipMembers (dir : List (String × Nat)) : List String → List String
  | [] => []
  | f :: rest =>
      if (dir.lookup f).isSome then f :: zipMembers dir rest
      else zipMembers dir rest

/-! ### Task store, on-disk state, endpoint handlers and the retention
sweep (`app/main.py` and `VideoProcessor.cleanup_old_tasks` /
`get_task_status` / `get_task_files`) -/

/-- Association-list lookup keyed on the first component (Python dict /
directory lookup). -/
def lookupKey (k : String) : List (String × α) → Option α
  | [] => none
  | p :: rest => if p.1 = k then some p.2 else lookupKey k rest

/-- Model of `del d[k]` resp. `shutil.rmtree` on a keyed collection. -/
def removeKey (k : String) (l : List (String × α)) : List (String × α) :=
  l.filter (fun p => decide (p.1 ≠ k))

/-- Refresh `last_accessed` of task `k` (done by `get_task_status` and
`get_task_files` when the record exists). -/
def touch (k : String) (now : Rat) (ts : List (String × Task)) :
    List (String × Task) :=
  ts.map (fun p => if p.1 = k then (p.1, { p.2 with lastAccessed := now }) else p)

/-- One directory under `settings.output_dir`: its files (name, byte
size) and its on-disk modification time. -/
structure DirEntry where
  files : List (String × Nat)
  mtime : Rat
deriving DecidableEq, Repr

def dirSize (d : DirEntry) : Nat := (d.files.map Prod.snd).sum

/-- The state the handlers operate on: `VideoProcessor.active_tasks`,
the directories under `settings.output_dir`, and the files under
`settings.upload_dir` (name, mtime, size). -/
structure SysState where
  tasks : List (String × Task)
  dirs : List (String × DirEntry)
  uploads : List (String × Rat × Nat)
deriving Repr

/-- Embedding of `VideoProcessor.get_task_status`: returns the record (if any) and
refreshes its `last_accessed`. -/
def getTaskStatus (tid : String) (now : Rat) (s : SysState) :
    Option Task × SysState :=
  match lookupKey tid s.tasks with
  | some t => (some { t with lastAccessed := now }, { s with tasks := touch tid now s.tasks })
  | none => (none, s)

/-- Embedding of `VideoProcessor.get_task_files`: refreshes `last_accessed` if the
record exists, then resolves the task directory purely by on-disk
existence of `settings.output_dir / task_id`. -/
def getTaskFiles (tid : String) (now : Rat) (s : SysState) :
    Option DirEntry × SysState :=
  let s1 := { s with tasks := touch tid now s.tasks }
  (lookupKey tid s1.dirs, s1)

/-- Endpoint `GET /api/status/{task_id}`: `.error c` is an `HTTPException(c)`;
`.ok` carries the `ProcessStatus` payload (status, progress, total,
optional error message). -/
def statusEndpoint (tid : String) (now : Rat) (s : SysState) :
    Except Nat (TaskStatus × Nat × Nat × Option String) × SysState :=
  match getTaskStatus tid now s with
  | (none, s1) => (.error 404, s1)
  | (some t, s1) => (.ok (t.status, t.progress, t.total, t.error), s1)

/-- Embedding of `cleanup_task_after_download(task_id)`: if the directory exists,
remove it (`rmtreeOk` = "`shutil.rmtree` did not raise"; on a raise the
whole function aborts, leaving the record in place); then drop the
in-memory record. -/
def cleanupTaskAfterDownload (rmtreeOk : Bool) (tid : String) (s : SysState) :
    SysState :=
  match lookupKey tid s.dirs with
  | some _ =>
      if rmtreeOk then
        { s with dirs := removeKey tid s.dirs, tasks := removeKey tid s.tasks }
      else s
  | none => { s with tasks := removeKey tid s.tasks }

/-- Endpoint `GET /api/download/archive/{task_id}`: checks record, completion,
recorded archive, directory, archive file and its size; on success
serves the archive (`.ok` carries the served filename) and schedules
`cleanup_task_after_download`. -/
def downloadArchive (rmtreeOk : Bool) (tid : String) (now : Rat) (s : SysState) :
    Except Nat String × SysState :=
  match getTaskStatus tid now s with
  | (none, s1) => (.error 404, s1)
  | (some t, s1) =>
    if t.status ≠ .completed then (.error 400, s1)
    else match t.archive with
    | none => (.error 404, s1)
    | some a =>
      match getTaskFiles tid now s1 with
      | (none, s2) => (.error 404, s2)
      | (some d, s2) =>
        match lookupKey a d.files with
        | none => (.error 404, s2)
        | some sz =>
          if sz = 0 then (.error 500, s2)
          else (.ok a, cleanupTaskAfterDownload rmtreeOk tid s2)

/-- Endpoint `GET /api/download/{task_id}/{filename}`: resolves the task solely
through `get_task_files` (on-disk existence), then checks the file. -/
def downloadFile (tid fname : String) (now : Rat) (s : SysState) :
    Except Nat String × SysState :=
  match getTaskFiles tid now s with
  | (none, s1) => (.error 404, s1)
  | (some d, s1) =>
    if (lookupKey fname d.files).isSome then (.ok fname, s1)
    else (.error 404, s1)

/-- Endpoint `DELETE /api/task/{task_id}`: resolve the directory via
`get_task_files`; if it exists, `rmtree` it (a raise propagates as a 500
before the record is touched); then drop the record; report bytes
freed. -/
def deleteTask (rmtreeOk : Bool) (tid : String) (now : Rat) (s : SysState) :
    Except Nat Nat × SysState :=
  match getTaskFiles tid now s with
  | (some d, s1) =>
    if rmtreeOk then
      (.ok (dirSize d),
       { s1 with dirs := removeKey tid s1.dirs, tasks := removeKey tid s1.tasks })
    else (.error 500, s1)
  | (none, s1) => (.ok 0, { s1 with tasks := removeKey tid s1.tasks })

/-- Embedding of `VideoProcessor.cleanup_old_tasks(hours)`.  `rmtreeOk`/`unlinkOk`
are per-path success oracles for `shutil.rmtree`/`Path.unlink` (a
failure is caught and logged per entry).  Phase 1 collects every
in-memory task with `last_accessed < cutoff`, removes those directories
it can, then deletes ALL collected ids from memory; phase 2 removes
orphaned directories older than the cutoff; phase 3 removes old
uploads.  Returns the new state, the cleaned count and bytes freed. -/
def cleanupOldTasks (rmtreeOk unlinkOk : String → Bool) (now hours : Rat)
    (s : SysState) : SysState × Nat × Nat :=
  let cutoff := now - hours
  let toRemove :=
    (s.tasks.filter (fun p => decide (p.2.lastAccessed < cutoff))).map Prod.fst
  let phase1 := toRemove.foldl (fun acc tid =>
      match lookupKey tid acc.1 with
      | some d =>
          if rmtreeOk tid then (removeKey tid acc.1, acc.2.1 + 1, acc.2.2 + dirSize d)
          else acc
      | none => acc)
    (s.dirs, (0 : Nat), (0 : Nat))
  let tasks1 := toRemove.foldl (fun ts tid => removeKey tid ts) s.tasks
  let phase2 := phase1.1.foldl (fun acc p =>
      if (lookupKey p.1 tasks1).isNone ∧ p.2.mtime < cutoff ∧ rmtreeOk p.1 then
        (removeKey p.1 acc.1, acc.2.1 + 1, acc.2.2 + dirSize p.2)
      else acc)
    (phase1.1, phase1.2.1, phase1.2.2)
  let phase3 := s.uploads.foldl (fun acc u =>
      if u.2.1 < cutoff ∧ unlinkOk u.1 then
        (acc.1.filter (fun v => decide (v.1 ≠ u.1)), acc.2 + u.2.2)
      else acc)
    (s.uploads, phase2.2.2)
  ({ tasks := tasks1, dirs := phase2.1, uploads := phase3.1 },
   phase2.2.1, phase3.2)

/-! ### Helper lemmas -/

theorem lookupKey_removeKey_self (k : String) (l : List (String × α)) :
    lookupKey k (removeKey k l) = none := by
  induction l with
  | nil => rfl
  | cons p rest ih =>
      rcases eq_or_ne p.1 k with h | h
      · simpa [removeKey, List.filter_cons, h] using ih
      · simpa [removeKey, List.filter_cons, h, lookupKey] using ih

theorem lookupKey_eq_none_iff (k : String) (l : List (String × α)) :
    lookupKey k l = none ↔ ∀ a, (k, a) ∉ l := by
  induction l with
  | nil => simp [lookupKey]
  | cons p rest ih =>
      rcases eq_or_ne p.1 k with h | h
      · subst h
        constructor
        · intro hcon
          simp [lookupKey] at hcon
        · intro hall
          exact absurd (show ((p.1, p.2) : String × α) ∈ p :: rest by simp)
            (hall p.2)
      · constructor
        · intro hnone a hmem
          rcases List.mem_cons.1 hmem with heq | hmem'
          · exact absurd (congrArg Prod.fst heq.symm) h
          · exact ih.1 (by simpa [lookupKey, h] using hnone) a hmem'
        · intro hall
          simp only [lookupKey, if_neg h]
          exact ih.2 (fun a hmem => hall a (List.mem_cons_of_mem _ hmem))

theorem lookupKey_touch (k : String) (now : Rat) (ts : List (String × Task)) :
    lookupKey k (touch k now ts)
      = (lookupKey k ts).map (fun t => { t with lastAccessed := now }) := by
  induction ts with
  | nil => rfl
  | cons p rest ih =>
      rcases eq_or_ne p.1 k with h | h
      · simp [touch, lookupKey, h]
      · simpa [touch, lookupKey, h] using ih

theorem mem_removeKey (k : String) (l : List (String × α)) (p : String × α) :
    p ∈ removeKey k l ↔ p ∈ l ∧ p.1 ≠ k := by
  simp [removeKey, List.mem_filter]

theorem mem_foldl_removeKey (l : List String) (ts : List (String × α))
    (p : String × α) :
    p ∈ l.foldl (fun acc tid => removeKey tid acc) ts ↔ p ∈ ts ∧ p.1 ∉ l := by
  induction l generalizing ts with
  | nil => simp
  | cons a l ih =>
      simp only [List.foldl_cons, ih, mem_removeKey, List.mem_cons]
      tauto

theorem lookupKey_foldl_removeKey_of_mem (l : List String) (ts : List (String × α))
    (k : String) (hk : k ∈ l) :
    lookupKey k (l.foldl (fun acc tid => removeKey tid acc) ts) = none := by
  rw [lookupKey_eq_none_iff]
  intro a hmem
  exact ((mem_foldl_removeKey l ts (k, a)).1 hmem).2 hk

theorem lookupKey_removeKey_ne (k kr : String) (l : List (String × α))
    (h : k ≠ kr) : lookupKey k (removeKey kr l) = lookupKey k l := by
  induction l with
  | nil => rfl
  | cons p rest ih =>
      by_cases hp : p.1 = kr
      · have hpk : ¬ p.1 = k := by rw [hp]; exact fun he => h he.symm
        rw [show removeKey kr (p :: rest) = removeKey kr rest from by
              simp [removeKey, List.filter_cons, hp]]
        rw [ih]
        simp [lookupKey, hpk]
      · rw [show removeKey kr (p :: rest) = p :: removeKey kr rest from by
              simp [removeKey, List.filter_cons, hp]]
        by_cases hpk : p.1 = k
        · simp [lookupKey, hpk]
        · simp [lookupKey, hpk, ih]

theorem lookupKey_foldl_invariant {α β γ : Type} (k : String)
    (f : List (String × α) × β → γ → List (String × α) × β)
    (l : List γ) (acc : List (String × α) × β)
    (hf : ∀ acc' p, p ∈ l → lookupKey k (f acc' p).1 = lookupKey k acc'.1) :
    lookupKey k (l.foldl f acc).1 = lookupKey k acc.1 := by
  induction l generalizing acc with
  | nil => rfl
  | cons a rest ih =>
      rw [List.foldl_cons]
      rw [ih (f acc a) (fun acc' p hp => hf acc' p (List.mem_cons_of_mem _ hp))]
      exact hf acc a (List.mem_cons_self a rest)

theorem assoc_nodup_eq (l : List (String × α)) (hnd : (l.map Prod.fst).Nodup)
    (k : String) (a b : α) (ha : (k, a) ∈ l) (hb : (k, b) ∈ l) : a = b := by
  induction l with
  | nil => simp at ha
  | cons p rest ih =>
      simp only [List.map_cons, List.nodup_cons] at hnd
      rcases List.mem_cons.1 ha with ha' | ha' <;> rcases List.mem_cons.1 hb with hb' | hb'
      · exact congrArg Prod.snd (ha'.trans hb'.symm)
      · have hk : k ∈ rest.map Prod.fst := List.mem_map_of_mem Prod.fst hb'
        have hpk : p.1 = k := congrArg Prod.fst ha'.symm
        exact absurd hk (hpk ▸ hnd.1)
      · have hk : k ∈ rest.map Prod.fst := List.mem_map_of_mem Prod.fst ha'
        have hpk : p.1 = k := congrArg Prod.fst hb'.symm
        exact absurd hk (hpk ▸ hnd.1)
      · exact ih hnd.2 ha' hb'

/-- The filenames successfully created by the first `n` loop iterations
of `_process_task` (characterization used by the theorems below). -/
def createdFiles (encodeOk : Nat → Bool) (fmt : String) (n : Nat) : List String :=
  ((List.range' 1 n).filter encodeOk).map (fun i => outputFilename i fmt)

theorem range'_one_concat (n : Nat) :
    List.range' 1 (n + 1) = List.range' 1 n ++ [1 + n] := by
  simpa using @List.range'_concat 1 1 n

theorem copyLoop_zero (encodeOk : Nat → Bool) (fmt : String) (now : Rat) (t : Task) :
    copyLoop encodeOk fmt now 0 t = t := rfl

theorem copyLoop_succ_eq (encodeOk : Nat → Bool) (fmt : String) (now : Rat)
    (n : Nat) (t : Task) :
    copyLoop encodeOk fmt now (n + 1) t
      = { t with files := t.files ++ createdFiles encodeOk fmt (n + 1),
                 progress := n + 1, lastAccessed := now } := by
  induction n with
  | zero =>
      cases hok : encodeOk 1 <;>
        simp [copyLoop, createdFiles, attemptCopy, List.range', hok]
  | succ n ih =>
      have hsplit := range'_one_concat (n + 1)
      unfold copyLoop at ih ⊢
      rw [hsplit, List.foldl_append, ih]
      have harith : 1 + (n + 1) = n + 1 + 1 := by omega
      rw [harith]
      cases hok : encodeOk (n + 1 + 1) <;>
        simp [attemptCopy, createdFiles, hsplit, List.filter_append,
              List.map_append, hok, harith]

/-! ### Head-character lemmas distinguishing the filter strings -/

theorem scaleFilter_head (s : Rat) : (scaleFilter s).data.head? = some 's' := rfl

theorem cropFilter_head (x y : Rat) : (cropFilter x y).data.head? = some 'c' := rfl

theorem padFilter_head : padFilter.data.head? = some 'p' := rfl

theorem scaleFilter_ne_cropFilter (s x y : Rat) : scaleFilter s ≠ cropFilter x y := by
  intro h
  have hh : some 's' = some 'c' := by
    rw [← scaleFilter_head s, ← cropFilter_head x y, h]
  simp at hh

theorem scaleFilter_ne_padFilter (s : Rat) : scaleFilter s ≠ padFilter := by
  intro h
  have hh : some 's' = some 'p' := by
    rw [← scaleFilter_head s, ← padFilter_head, h]
  simp at hh

/-- Concrete pseudo-random source (all draws zero) used to evaluate the
generator at concrete inputs. -/
def rngZero : Nat → RandomDraws := fun _ =>
  { fpsIdx := 0, fpsOffU := 0, crfN := 0, presetIdx := 0, scaleU := 0, gopN := 0,
    bitrateIdx := 0, volumeU := 0, hashU := 0, pixFmtIdx := 0, bFramesN := 0,
    refFramesN := 0, shiftXU := 0, shiftYU := 0 }

/-- Concrete stand-in for SHA-256 hex used at concrete inputs (any
function of the hashed string works for the statements below). -/
def shaId : String → String := fun s => s

/-! ### Claims -/

/-- C9: `_generate_unique_params` never reads `total_copies`: with the
same pseudo-random state and the same clock reading, any two values of
`totalCopies` produce identical recipes. -/
theorem claim_C9_total_copies_independent (rng : Nat → RandomDraws)
    (sha256hex : String → String) (clock : Rat) (copyNumber t1 t2 : Nat) :
    generateUniqueParams rng sha256hex clock copyNumber t1
      = generateUniqueParams rng sha256hex clock copyNumber t2 := rfl

/-- C1 (counterexample): the claim that two calls to the parameter
generator with the same `copyIndex` within one run return byte-identical
recipes, creation timestamp and unique identifier included, is false:
`_generate_unique_params` reads `datetime.now().timestamp()`, so a call
at clock reading 0 and a later call at clock reading 1, both with
`copyIndex = 1` and the same seeded random state, return different
recipes (their `creation_time` fields differ). -/
theorem claim_C1_counterexample :
    generateUniqueParams rngZero shaId 0 1 10
      ≠ generateUniqueParams rngZero shaId 1 1 10 := by
  intro h
  have hct := congrArg Recipe.creationTime h
  simp only [generateUniqueParams] at hct
  norm_num at hct

/-- C1 (amended): within one run, two calls with the same `copyIndex`
agree on every clock-independent recipe field (frame rate, quality
factor, preset, scale factor, GOP size, audio bitrate, audio gain, copy
number, encoder tag, pixel format, B-frame and reference-frame counts),
because the pseudo-random source is seeded with `copyIndex`; the whole
recipe — creation timestamp and unique identifier included — is
byte-identical exactly when the two calls also read the same clock
value. -/
theorem claim_C1_deterministic_fields (rng : Nat → RandomDraws)
    (sha256hex : String → String) (c c' : Rat) (i t t' : Nat) :
    (let r := generateUniqueParams rng sha256hex c i t
     let r' := generateUniqueParams rng sha256hex c' i t'
     r.fps = r'.fps ∧ r.crf = r'.crf ∧ r.preset = r'.preset
       ∧ r.scaleFactor = r'.scaleFactor ∧ r.gopSize = r'.gopSize
       ∧ r.audioBitrate = r'.audioBitrate ∧ r.audioVolume = r'.audioVolume
       ∧ r.copyNumber = r'.copyNumber ∧ r.encoderTag = r'.encoderTag
       ∧ r.pixelFormat = r'.pixelFormat ∧ r.bFrames = r'.bFrames
       ∧ r.refFrames = r'.refFrames)
    ∧ (c = c' →
        generateUniqueParams rng sha256hex c i t
          = generateUniqueParams rng sha256hex c' i t') := by
  refine ⟨⟨rfl, rfl, rfl, rfl, rfl, rfl, rfl, rfl, rfl, rfl, rfl, rfl⟩, ?_⟩
  intro h
  rw [h]
  rfl

/-- C1 (witness): the amended statement applied at concrete inputs with
an equal clock reading. -/
theorem claim_C1_witness :
    generateUniqueParams rngZero shaId 3 1 5
      = generateUniqueParams rngZero shaId 3 1 7 :=
  (claim_C1_deterministic_fields rngZero shaId 3 3 1 5 7).2 rfl

/-- C6: the archive member list is exactly the listed filenames that
still exist in the task directory at build time: every listed file
present on disk becomes a member, no other member appears, and listed
files that have vanished are merely skipped (the build never aborts —
the member list is total in the inputs). -/
theorem claim_C6_archive_members (dir : List (String × Nat)) (files : List String) :
    zipMembers dir files = files.filter (fun f => (dir.lookup f).isSome)
    ∧ (∀ m, m ∈ zipMembers dir files ↔ m ∈ files ∧ (dir.lookup m).isSome) := by
  have hfil : zipMembers dir files = files.filter (fun f => (dir.lookup f).isSome) := by
    induction files with
    | nil => rfl
    | cons f rest ih =>
        by_cases h : (dir.lookup f).isSome <;>
          simp [zipMembers, List.filter_cons, h, ih]
  refine ⟨hfil, fun m => ?_⟩
  rw [hfil]
  simp [List.mem_filter]

/-- C7: the video filter chain built for every recipe always ends with
the 1-pixel crop step immediately followed by the pad-back step, and
contains the sub-pixel scaling step exactly when the scale factor
differs from 1 by more than the epsilon 0.0001; the assembled encoder
invocation carries that chain behind the `-vf` flag. -/
theorem claim_C7_filter_chain (input output : String) (p : Recipe) (sx sy : Rat) :
    (buildVideoFilters p.scaleFactor sx sy
       = (if |p.scaleFactor - 1| > 1/10000 then [scaleFilter p.scaleFactor] else [])
          ++ [cropFilter sx sy, padFilter])
    ∧ (scaleFilter p.scaleFactor ∈ buildVideoFilters p.scaleFactor sx sy
        ↔ |p.scaleFactor - 1| > 1/10000)
    ∧ (∃ pre post, buildFfmpegCommand input output p sx sy
        = pre ++ ["-vf",
            String.intercalate "," (buildVideoFilters p.scaleFactor sx sy)] ++ post) := by
  have hchar : buildVideoFilters p.scaleFactor sx sy
      = (if |p.scaleFactor - 1| > 1/10000 then [scaleFilter p.scaleFactor] else [])
         ++ [cropFilter sx sy, padFilter] := by
    by_cases h : |p.scaleFactor - 1| > 1/10000 <;>
      simp [buildVideoFilters, h]
  have hne : buildVideoFilters p.scaleFactor sx sy ≠ [] := by
    rw [hchar]
    by_cases h : |p.scaleFactor - 1| > 1/10000 <;> simp [h]
  refine ⟨hchar, ?_, ?_⟩
  · rw [hchar]
    by_cases h : |p.scaleFactor - 1| > 1/10000
    · rw [if_pos h]
      exact ⟨fun _ => h, fun _ => by simp⟩
    · rw [if_neg h]
      refine iff_of_false ?_ h
      intro hmem
      simp only [List.nil_append] at hmem
      rcases List.mem_cons.1 hmem with heq | hmem'
      · exact scaleFilter_ne_cropFilter _ _ _ heq
      · rcases List.mem_cons.1 hmem' with heq | hmem''
        · exact scaleFilter_ne_padFilter _ heq
        · simp at hmem''
  · refine ⟨["ffmpeg", "-i", input, "-y"],
      ["-c:v", "libx264", "-preset", p.preset, "-crf", toString p.crf,
       "-g", toString p.gopSize, "-bf", toString p.bFrames,
       "-refs", toString p.refFrames, "-pix_fmt", p.pixelFormat]
      ++ ["-r", toString p.fps]
      ++ ["-c:a", "aac", "-b:a", p.audioBitrate,
          "-af", "volume=" ++ toString p.audioVolume]
      ++ ["-metadata", "creation_time=" ++ toString p.creationTime,
          "-metadata", "encoder=" ++ p.encoderTag,
          "-metadata", "comment=Unique_Copy_" ++ toString p.copyNumber,
          "-metadata", "unique_id=" ++ p.uniqueId,
          "-metadata", "title=Video_" ++ pad3 p.copyNumber]
      ++ ["-movflags", "+faststart", "-fflags", "+genpts"]
      ++ [output], ?_⟩
    simp [buildFfmpegCommand, hne]

theorem processTask_status (encodeOk : Nat → Bool) (archiveOk : Bool)
    (taskId fmt : String) (now : Rat) (t : Task) :
    (processTask encodeOk archiveOk taskId fmt now t).status = .completed := by
  unfold processTask
  by_cases h : (copyLoop encodeOk fmt now t.total t).files ≠ [] ∧ archiveOk <;>
    simp [h]

theorem processTask_progress (encodeOk : Nat → Bool) (archiveOk : Bool)
    (taskId fmt : String) (now : Rat) (t : Task) :
    (processTask encodeOk archiveOk taskId fmt now t).progress
      = (copyLoop encodeOk fmt now t.total t).progress := by
  unfold processTask
  by_cases h : (copyLoop encodeOk fmt now t.total t).files ≠ [] ∧ archiveOk <;>
    simp [h]

theorem processTask_files (encodeOk : Nat → Bool) (archiveOk : Bool)
    (taskId fmt : String) (now : Rat) (t : Task) :
    (processTask encodeOk archiveOk taskId fmt now t).files
      = (copyLoop encodeOk fmt now t.total t).files := by
  unfold processTask
  by_cases h : (copyLoop encodeOk fmt now t.total t).files ≠ [] ∧ archiveOk <;>
    simp [h]

theorem processTask_archive (encodeOk : Nat → Bool) (archiveOk : Bool)
    (taskId fmt : String) (now : Rat) (t : Task) :
    (processTask encodeOk archiveOk taskId fmt now t).archive
      = if (copyLoop encodeOk fmt now t.total t).files ≠ [] ∧ archiveOk
        then some (archiveFilename taskId)
        else (copyLoop encodeOk fmt now t.total t).archive := by
  unfold processTask
  by_cases h : (copyLoop encodeOk fmt now t.total t).files ≠ [] ∧ archiveOk <;>
    simp [h]

theorem copyLoop_initial_files (encodeOk : Nat → Bool) (fmt : String)
    (now : Rat) (m n : Nat) :
    (copyLoop encodeOk fmt now n (initialTask m now)).files
      = createdFiles encodeOk fmt n := by
  cases n with
  | zero => simp [copyLoop_zero, initialTask, createdFiles]
  | succ n => simp [copyLoop_succ_eq, initialTask]

theorem copyLoop_initial_progress (encodeOk : Nat → Bool) (fmt : String)
    (now : Rat) (m n : Nat) :
    (copyLoop encodeOk fmt now n (initialTask m now)).progress = n := by
  cases n with
  | zero => simp [copyLoop_zero, initialTask]
  | succ n => simp [copyLoop_succ_eq]

theorem copyLoop_archive (encodeOk : Nat → Bool) (fmt : String)
    (now : Rat) (n : Nat) (t : Task) :
    (copyLoop encodeOk fmt now n t).archive = t.archive := by
  cases n with
  | zero => simp [copyLoop_zero]
  | succ n => simp [copyLoop_succ_eq]

/-- C2: the per-copy loop of `_process_task` visits `i = 1..total` in
strictly increasing order (the loop list is `range' 1 total`); after the
first `i` attempts — the fold over the first `i` loop indices — progress
equals `i` and the files list is exactly the successful filenames among
copies `1..i` in index order; hence the final state has
`progress = total`, `files` equal to the index-ordered successful
filenames with `length ≤ total`, and status `completed`.  In particular
for `total = 3` with only copy 2 failing the final state is
status `completed`, progress 3, files `[video_001.mp4, video_003.mp4]`. -/
theorem claim_C2_loop (encodeOk : Nat → Bool) (archiveOk : Bool)
    (taskId fmt : String) (now : Rat) (total : Nat) :
    (∀ i, 1 ≤ i → i ≤ total →
        ((List.range' 1 total).take i).foldl (attemptCopy encodeOk fmt now)
            (initialTask total now)
          = copyLoop encodeOk fmt now i (initialTask total now)
        ∧ (copyLoop encodeOk fmt now i (initialTask total now)).progress = i
        ∧ (copyLoop encodeOk fmt now i (initialTask total now)).files
            = createdFiles encodeOk fmt i)
    ∧ (processTask encodeOk archiveOk taskId fmt now (initialTask total now)).progress
        = total
    ∧ (processTask encodeOk archiveOk taskId fmt now (initialTask total now)).files
        = createdFiles encodeOk fmt total
    ∧ (processTask encodeOk archiveOk taskId fmt now (initialTask total now)).files.length
        ≤ total
    ∧ (processTask encodeOk archiveOk taskId fmt now (initialTask total now)).status
        = .completed
    ∧ (let fin3 := processTask (fun i => decide (i ≠ 2)) true "t" "mp4" 0
                     (initialTask 3 0)
       fin3.status = .completed ∧ fin3.progress = 3
         ∧ fin3.files = ["video_001.mp4", "video_003.mp4"]) := by
  have hlen : ∀ n, (createdFiles encodeOk fmt n).length ≤ n := by
    intro n
    calc (createdFiles encodeOk fmt n).length
        = ((List.range' 1 n).filter encodeOk).length := by
          simp [createdFiles]
      _ ≤ (List.range' 1 n).length := List.length_filter_le _ _
      _ = n := by simp
  have hprocfiles :
      (processTask encodeOk archiveOk taskId fmt now (initialTask total now)).files
        = createdFiles encodeOk fmt total := by
    rw [processTask_files]
    simpa [initialTask] using copyLoop_initial_files encodeOk fmt now total total
  refine ⟨?_, ?_, hprocfiles, ?_, ?_, ?_⟩
  · intro i h1 h2
    have htake : (List.range' 1 total).take i = List.range' 1 i := by
      have hsplit : List.range' 1 i ++ List.range' (1 + i) (total - i)
          = List.range' 1 total := by
        have := List.range'_append 1 i (total - i) 1
        simp only [one_mul] at this
        rw [this]
        congr 1
        omega
      rw [← hsplit]
      have hlenr : (List.range' 1 i).length = i := by simp
      have hti := List.take_left (List.range' 1 i) (List.range' (1 + i) (total - i))
      rwa [hlenr] at hti
    refine ⟨by rw [htake]; rfl, ?_, ?_⟩
    · exact copyLoop_initial_progress encodeOk fmt now total i
    · exact copyLoop_initial_files encodeOk fmt now total i
  · rw [processTask_progress]
    simpa [initialTask] using copyLoop_initial_progress encodeOk fmt now total total
  · rw [hprocfiles]; exact hlen total
  · exact processTask_status encodeOk archiveOk taskId fmt now (initialTask total now)
  · refine ⟨?_, ?_, ?_⟩
    · exact processTask_status _ _ _ _ _ _
    · rw [processTask_progress]
      simpa [initialTask] using
        copyLoop_initial_progress (fun i => decide (i ≠ 2)) "mp4" 0 3 3
    · rw [show (processTask (fun i => decide (i ≠ 2)) true "t" "mp4" 0
            (initialTask 3 0)).files
          = createdFiles (fun i => decide (i ≠ 2)) "mp4" 3 from by
            rw [processTask_files]
            simpa [initialTask] using
              copyLoop_initial_files (fun i => decide (i ≠ 2)) "mp4" 0 3 3]
      decide

/-- C2 (witness): the loop characterization applied at a concrete run
(`total = 3`, copy 2 failing). -/
theorem claim_C2_witness :
    (copyLoop (fun i => decide (i ≠ 2)) "mp4" 0 2 (initialTask 3 0)).progress = 2
    ∧ (processTask (fun i => decide (i ≠ 2)) true "t" "mp4" 0
        (initialTask 3 0)).files = ["video_001.mp4", "video_003.mp4"] :=
  ⟨((claim_C2_loop (fun i => decide (i ≠ 2)) true "t" "mp4" 0 3).1 2
      (by decide) (by decide)).2.1,
   (claim_C2_loop (fun i => decide (i ≠ 2)) true "t" "mp4" 0 3).2.2.2.2.2.2.2⟩

/-- C3: after the per-copy loop, `_process_task` always marks the task
`completed` — even when every copy failed (zero files) and even when
archive building failed, in which case no archive name is recorded; the
task becomes `failed`, with the exception text in `error`, only through
the `except` handler, i.e. only when an exception propagates out of the
processing body itself. -/
theorem claim_C3_terminal (encodeOk : Nat → Bool) (archiveOk : Bool)
    (taskId fmt : String) (now : Rat) (total : Nat) :
    ((processTask encodeOk archiveOk taskId fmt now (initialTask total now)).status
        = .completed)
    ∧ (archiveOk = false →
        (processTask encodeOk archiveOk taskId fmt now (initialTask total now)).archive
          = none)
    ∧ ((∀ i, encodeOk i = false) →
        (processTask encodeOk archiveOk taskId fmt now (initialTask total now)).files
            = []
        ∧ (processTask encodeOk archiveOk taskId fmt now (initialTask total now)).archive
            = none)
    ∧ (∀ e t, (processTaskExc e now t).status = .failed
        ∧ (processTaskExc e now t).error = some e) := by
  refine ⟨?_, ?_, ?_, ?_⟩
  · exact processTask_status _ _ _ _ _ _
  · intro hao
    subst hao
    rw [processTask_archive]
    simp [copyLoop_archive, initialTask]
  · intro hfail
    have hempty : createdFiles encodeOk fmt total = [] := by
      simp [createdFiles, List.filter_eq_nil_iff, hfail]
    have hf : (processTask encodeOk archiveOk taskId fmt now
        (initialTask total now)).files = [] := by
      rw [processTask_files]
      rw [show (initialTask total now).total = total from rfl]
      rw [copyLoop_initial_files]
      exact hempty
    refine ⟨hf, ?_⟩
    rw [processTask_archive]
    rw [show (initialTask total now).total = total from rfl]
    rw [copyLoop_initial_files, hempty]
    simp [copyLoop_archive, initialTask]
  · intro e t
    exact ⟨rfl, rfl⟩

/-- C3 (witness): a run in which every encode fails and the archive
step fails still terminates `completed` with no archive recorded. -/
theorem claim_C3_witness :
    (processTask (fun _ => false) false "t" "mp4" 0 (initialTask 2 0)).status
        = TaskStatus.completed
    ∧ (processTask (fun _ => false) false "t" "mp4" 0 (initialTask 2 0)).archive
        = none
    ∧ (processTask (fun _ => false) false "t" "mp4" 0 (initialTask 2 0)).files
        = []
    ∧ (processTaskExc "boom" 0 (initialTask 2 0)).status = TaskStatus.failed :=
  ⟨(claim_C3_terminal (fun _ => false) false "t" "mp4" 0 2).1,
   (claim_C3_terminal (fun _ => false) false "t" "mp4" 0 2).2.1 rfl,
   ((claim_C3_terminal (fun _ => false) false "t" "mp4" 0 2).2.2.1
      (fun _ => rfl)).1,
   ((claim_C3_terminal (fun _ => false) false "t" "mp4" 0 2).2.2.2 "boom"
      (initialTask 2 0)).1⟩

/-- C4: the retention sweep with threshold `h` removes from the
in-memory task store exactly the tasks whose `last_accessed` strictly
precedes `now - h` (the comparison in `cleanup_old_tasks` is
`last_accessed < cutoff_time`); in particular a task last accessed at
`now - h - ε` is removed and one last accessed at `now - h + ε` is
retained, for any `ε > 0`. -/
theorem claim_C4_retention (rmtreeOk unlinkOk : String → Bool) (now h : Rat)
    (s : SysState) (hnd : (s.tasks.map Prod.fst).Nodup) (id : String) (t : Task) :
    ((id, t) ∈ (cleanupOldTasks rmtreeOk unlinkOk now h s).1.tasks
      ↔ (id, t) ∈ s.tasks ∧ ¬ t.lastAccessed < now - h)
    ∧ (∀ ε : Rat, 0 < ε → (id, t) ∈ s.tasks → t.lastAccessed = now - h - ε →
        (id, t) ∉ (cleanupOldTasks rmtreeOk unlinkOk now h s).1.tasks)
    ∧ (∀ ε : Rat, 0 < ε → (id, t) ∈ s.tasks → t.lastAccessed = now - h + ε →
        (id, t) ∈ (cleanupOldTasks rmtreeOk unlinkOk now h s).1.tasks) := by
  have htasks : (cleanupOldTasks rmtreeOk unlinkOk now h s).1.tasks
      = ((s.tasks.filter (fun p => decide (p.2.lastAccessed < now - h))).map
          Prod.fst).foldl (fun ts tid => removeKey tid ts) s.tasks := rfl
  have hmain : (id, t) ∈ (cleanupOldTasks rmtreeOk unlinkOk now h s).1.tasks
      ↔ (id, t) ∈ s.tasks ∧ ¬ t.lastAccessed < now - h := by
    rw [htasks, mem_foldl_removeKey]
    constructor
    · rintro ⟨hm, hnin⟩
      refine ⟨hm, fun hold => hnin ?_⟩
      exact List.mem_map.2 ⟨(id, t), List.mem_filter.2 ⟨hm, by simpa using hold⟩, rfl⟩
    · rintro ⟨hm, hnot⟩
      refine ⟨hm, fun hin => ?_⟩
      rcases List.mem_map.1 hin with ⟨p, hpf, hfst⟩
      rcases List.mem_filter.1 hpf with ⟨hpmem, hpold⟩
      obtain ⟨pk, pv⟩ := p
      have hpk : pk = id := by simpa using hfst
      subst hpk
      have hpv := assoc_nodup_eq s.tasks hnd pk pv t hpmem hm
      subst hpv
      exact hnot (by simpa using hpold)
  refine ⟨hmain, ?_, ?_⟩
  · intro ε hε hmem heq
    rw [hmain]
    rintro ⟨-, hnot⟩
    apply hnot
    rw [heq]
    linarith
  · intro ε hε hmem heq
    rw [hmain]
    exact ⟨hmem, by rw [heq]; intro hcon; linarith⟩

/-- Concrete expired task (for the sweep theorems): last accessed at
time 0. -/
def oldTask : Task :=
  { status := .completed, progress := 1, total := 1, files := ["video_001.mp4"]
    createdAt := 0, lastAccessed := 0, archive := none, error := none }

/-- Concrete fresh task: last accessed at time 2. -/
def freshTask : Task :=
  { status := .completed, progress := 1, total := 1, files := ["video_001.mp4"]
    createdAt := 2, lastAccessed := 2, archive := none, error := none }

/-- Concrete store for the sweep theorems: with `now = 25` and
threshold `h = 24` (cutoff 1), `t1` sits at `now - h - 1` and `t2` at
`now - h + 1`. -/
def sweepState : SysState :=
  { tasks := [("t1", oldTask), ("t2", freshTask)]
    dirs := [("t1", { files := [("video_001.mp4", 100)], mtime := 0 })]
    uploads := [] }

/-- C4 (witness): both boundary directions of the sweep at a concrete
state. -/
theorem claim_C4_witness :
    ("t1", oldTask) ∉
      (cleanupOldTasks (fun _ => true) (fun _ => true) 25 24 sweepState).1.tasks
    ∧ ("t2", freshTask) ∈
      (cleanupOldTasks (fun _ => true) (fun _ => true) 25 24 sweepState).1.tasks :=
  ⟨(claim_C4_retention (fun _ => true) (fun _ => true) 25 24 sweepState
      (by simp [sweepState]) "t1" oldTask).2.1 1 (by norm_num)
      (by simp [sweepState]) (by show (0 : Rat) = 25 - 24 - 1; norm_num),
   (claim_C4_retention (fun _ => true) (fun _ => true) 25 24 sweepState
      (by simp [sweepState]) "t2" freshTask).2.2 1 (by norm_num)
      (by simp [sweepState]) (by show (2 : Rat) = 25 - 24 + 1; norm_num)⟩

/-- C5: when the archive download endpoint serves a completed task's
archive (its success branch schedules `cleanup_task_after_download`),
the task's working directory and its in-memory record are both deleted,
so a subsequent status query for the same id answers 404 (not found). -/
theorem claim_C5_consume_once (tid a : String) (now now2 : Rat) (s : SysState)
    (hok : (downloadArchive true tid now s).1 = .ok a) :
    lookupKey tid ((downloadArchive true tid now s).2).tasks = none
    ∧ lookupKey tid ((downloadArchive true tid now s).2).dirs = none
    ∧ (statusEndpoint tid now2 (downloadArchive true tid now s).2).1
        = .error 404 := by
  have hfin : ∀ s' : SysState, lookupKey tid s'.tasks = none →
      (statusEndpoint tid now2 s').1 = .error 404 := by
    intro s' hnone
    simp [statusEndpoint, getTaskStatus, hnone]
  unfold downloadArchive getTaskFiles at hok ⊢
  cases h1 : lookupKey tid s.tasks with
  | none => simp [getTaskStatus, h1] at hok
  | some t =>
      simp only [getTaskStatus, h1] at hok ⊢
      cases hs : t.status with
      | processing => simp [hs] at hok
      | failed => simp [hs] at hok
      | completed =>
          cases h3 : t.archive with
          | none => simp [hs, h3] at hok
          | some arch =>
              cases h4 : lookupKey tid s.dirs with
              | none => simp [hs, h3, h4] at hok
              | some d =>
                  cases h5 : lookupKey arch d.files with
                  | none => simp [hs, h3, h4, h5] at hok
                  | some sz =>
                      by_cases h6 : sz = 0
                      · simp [hs, h3, h4, h5, h6] at hok
                      · simp only [hs, h3, h4, h5, h6] at hok ⊢
                        have hclean : cleanupTaskAfterDownload true tid
                            { s with
                                tasks := touch tid now (touch tid now s.tasks) }
                            = { s with
                                  tasks := removeKey tid
                                    (touch tid now (touch tid now s.tasks)),
                                  dirs := removeKey tid s.dirs } := by
                          simp [cleanupTaskAfterDownload, h4]
                        simp only [ne_eq, not_true_eq_false, if_false,
                          ite_false, Bool.false_eq_true, reduceCtorEq,
                          reduceIte, hclean] at hok ⊢
                        refine ⟨?_, ?_, ?_⟩
                        · exact lookupKey_removeKey_self _ _
                        · exact lookupKey_removeKey_self _ _
                        · exact hfin _ (lookupKey_removeKey_self _ _)

/-- Concrete completed task holding an archive, for evaluating the
download endpoints. -/
def dlTask : Task :=
  { status := .completed, progress := 1, total := 1, files := ["video_001.mp4"]
    createdAt := 0, lastAccessed := 0, archive := some "videos_t.zip"
    error := none }

/-- Concrete state for the download endpoints: task `t` with its
directory holding the produced copy and the archive. -/
def dlState : SysState :=
  { tasks := [("t", dlTask)]
    dirs := [("t", { files := [("video_001.mp4", 100), ("videos_t.zip", 50)]
                     mtime := 0 })]
    uploads := [] }

/-- C5 (witness): the archive download succeeds on the concrete state
and the subsequent status query answers 404. -/
theorem claim_C5_witness :
    (downloadArchive true "t" 7 dlState).1 = Except.ok "videos_t.zip"
    ∧ (statusEndpoint "t" 8 (downloadArchive true "t" 7 dlState).2).1
        = Except.error 404 :=
  ⟨rfl, (claim_C5_consume_once "t" "videos_t.zip" 7 8 dlState rfl).2.2⟩

theorem exists_mem_of_lookupKey_isSome (k : String) (l : List (String × α)) :
    (lookupKey k l).isSome → ∃ v, (k, v) ∈ l := by
  induction l with
  | nil => simp [lookupKey]
  | cons p rest ih =>
      rcases eq_or_ne p.1 k with h | h
      · intro _
        exact ⟨p.2, by rw [← h]; simp⟩
      · intro hs
        rcases ih (by simpa [lookupKey, h] using hs) with ⟨v, hv⟩
        exact ⟨v, List.mem_cons_of_mem _ hv⟩

/-- C10: the individual-file download endpoint resolves the task purely
by on-disk existence of its output directory, not by store membership:
the response is 200 (the file) exactly when the directory exists and
contains the named file, 404 exactly otherwise; the response is
unchanged under any change to the task store; and in particular a task
id with no in-memory record but a surviving directory is served. -/
theorem claim_C10_file_by_disk (tid fname : String) (now : Rat)
    (s s2 : SysState) :
    ((downloadFile tid fname now s).1 = .ok fname
      ↔ ∃ d, lookupKey tid s.dirs = some d ∧ (lookupKey fname d.files).isSome)
    ∧ ((downloadFile tid fname now s).1 = .error 404
      ↔ ¬ ∃ d, lookupKey tid s.dirs = some d ∧ (lookupKey fname d.files).isSome)
    ∧ (s2.dirs = s.dirs →
        (downloadFile tid fname now s2).1 = (downloadFile tid fname now s).1)
    ∧ (lookupKey tid s.tasks = none →
        ∀ d, lookupKey tid s.dirs = some d → (lookupKey fname d.files).isSome →
          (downloadFile tid fname now s).1 = .ok fname) := by
  have hresp : ∀ s' : SysState, (downloadFile tid fname now s').1
      = match lookupKey tid s'.dirs with
        | none => .error 404
        | some d => if (lookupKey fname d.files).isSome then .ok fname
                    else .error 404 := by
    intro s'
    unfold downloadFile getTaskFiles
    cases hd : lookupKey tid s'.dirs with
    | none => simp [hd]
    | some d => by_cases hf : (lookupKey fname d.files).isSome <;> simp [hd, hf]
  refine ⟨?_, ?_, ?_, ?_⟩
  · rw [hresp]
    cases hd : lookupKey tid s.dirs with
    | none => simp [hd]
    | some d =>
        by_cases hf : (lookupKey fname d.files).isSome <;> simp [hd, hf]
  · rw [hresp]
    cases hd : lookupKey tid s.dirs with
    | none => simp [hd]
    | some d =>
        by_cases hf : (lookupKey fname d.files).isSome <;> simp [hd, hf]
  · intro hdirs
    rw [hresp s2, hresp s, hdirs]
  · intro _ d hd hf
    rw [hresp]
    simp [hd, hf]

/-- Concrete state with a surviving output directory but no in-memory
record for the task. -/
def orphanState : SysState :=
  { tasks := []
    dirs := [("t", { files := [("f.mp4", 10)], mtime := 0 })]
    uploads := [] }

/-- C10 (witness): the record-free task is served from disk. -/
theorem claim_C10_witness :
    (downloadFile "t" "f.mp4" 5 orphanState).1 = Except.ok "f.mp4"
    ∧ (downloadFile "t" "f.mp4" 5 orphanState).1
        = (downloadFile "t" "f.mp4" 5 orphanState).1 :=
  ⟨(claim_C10_file_by_disk "t" "f.mp4" 5 orphanState orphanState).2.2.2 rfl
      { files := [("f.mp4", 10)], mtime := 0 } rfl rfl,
   (claim_C10_file_by_disk "t" "f.mp4" 5 orphanState orphanState).2.2.1 rfl⟩

/-- C8 (counterexample): the claim that no operation removes the
in-memory store entry while the directory removal failed and the
directory persists is false for the retention sweep: on a state with
the expired task `t1` whose `shutil.rmtree` fails, `cleanup_old_tasks`
still deletes `t1` from the store while its directory survives both the
per-task and the orphan phases. -/
theorem claim_C8_counterexample :
    lookupKey "t1" (cleanupOldTasks (fun _ => false) (fun _ => false) 25 24
        sweepState).1.tasks = none
    ∧ lookupKey "t1" (cleanupOldTasks (fun _ => false) (fun _ => false) 25 24
        sweepState).1.dirs
      = some { files := [("video_001.mp4", 100)], mtime := 0 } := by
  have h1 : ((0 : Rat) < 25 - 24) := by norm_num
  have h2 : ¬ ((2 : Rat) < 25 - 24) := by norm_num
  constructor <;>
    simp [cleanupOldTasks, sweepState, oldTask, freshTask, lookupKey,
          removeKey, dirSize, h1, h2]

set_option maxHeartbeats 1600000 in
/-- C8 (amended): explicit deletion and post-download cleanup do delete
the working directory and the store entry together — when directory
removal fails, both survive (explicit deletion surfaces a 500, the
post-download cleanup swallows the exception before touching the
record) — and no operation removes a directory while keeping its store
entry: in particular the retention sweep leaves every directory whose id
still has a store entry afterwards untouched (its phase 1 only removes
directories of ids it also deletes from the store, its orphan phase only
directories absent from the post-deletion store); but the sweep deviates
in the other direction: it removes the expired store entry even when the
directory removal failed, leaving the directory behind as an orphan. -/
theorem claim_C8_delete_coupling :
    (∀ (tid : String) (now : Rat) (s : SysState) (d : DirEntry),
      lookupKey tid s.dirs = some d →
        (lookupKey tid ((deleteTask true tid now s).2).tasks = none
          ∧ lookupKey tid ((deleteTask true tid now s).2).dirs = none)
        ∧ ((deleteTask false tid now s).1 = .error 500
          ∧ lookupKey tid ((deleteTask false tid now s).2).dirs = some d
          ∧ (lookupKey tid ((deleteTask false tid now s).2).tasks).isSome
              = (lookupKey tid s.tasks).isSome))
    ∧ (∀ (tid : String) (s : SysState) (d : DirEntry),
      lookupKey tid s.dirs = some d →
        (lookupKey tid (cleanupTaskAfterDownload true tid s).tasks = none
          ∧ lookupKey tid (cleanupTaskAfterDownload true tid s).dirs = none)
        ∧ cleanupTaskAfterDownload false tid s = s)
    ∧ (∀ (rk uk : String → Bool) (now h : Rat) (s : SysState) (id : String)
        (t : Task), (id, t) ∈ s.tasks → t.lastAccessed < now - h →
          lookupKey id (cleanupOldTasks rk uk now h s).1.tasks = none)
    ∧ (∀ (rk uk : String → Bool) (now h : Rat) (s : SysState) (k : String),
        (lookupKey k (cleanupOldTasks rk uk now h s).1.tasks).isSome →
          lookupKey k (cleanupOldTasks rk uk now h s).1.dirs
            = lookupKey k s.dirs) := by
  refine ⟨?_, ?_, ?_, ?_⟩
  · intro tid now s d hd
    have hd' : lookupKey tid
        ({ s with tasks := touch tid now s.tasks } : SysState).dirs = some d := hd
    constructor
    · constructor
      · simp only [deleteTask, getTaskFiles, hd']
        exact lookupKey_removeKey_self _ _
      · simp only [deleteTask, getTaskFiles, hd']
        exact lookupKey_removeKey_self _ _
    · refine ⟨?_, ?_, ?_⟩
      · simp [deleteTask, getTaskFiles, hd']
      · simpa [deleteTask, getTaskFiles, hd'] using hd
      · simp [deleteTask, getTaskFiles, hd', lookupKey_touch]
  · intro tid s d hd
    refine ⟨⟨?_, ?_⟩, ?_⟩
    · simp only [cleanupTaskAfterDownload, hd]
      exact lookupKey_removeKey_self _ _
    · simp only [cleanupTaskAfterDownload, hd]
      exact lookupKey_removeKey_self _ _
    · simp [cleanupTaskAfterDownload, hd]
  · intro rk uk now h s id t hmem hold
    have htasks : (cleanupOldTasks rk uk now h s).1.tasks
        = ((s.tasks.filter (fun p => decide (p.2.lastAccessed < now - h))).map
            Prod.fst).foldl (fun ts tid => removeKey tid ts) s.tasks := rfl
    rw [htasks]
    apply lookupKey_foldl_removeKey_of_mem
    exact List.mem_map.2 ⟨(id, t), List.mem_filter.2 ⟨hmem, by simpa using hold⟩, rfl⟩
  · intro rk uk now h s k hk
    have hk1 : (lookupKey k
        (((s.tasks.filter (fun p => decide (p.2.lastAccessed < now - h))).map
            Prod.fst).foldl (fun ts tid => removeKey tid ts) s.tasks)).isSome :=
      hk
    have hnotin : k ∉ ((s.tasks.filter
        (fun p => decide (p.2.lastAccessed < now - h))).map Prod.fst) := by
      intro hmem
      rw [lookupKey_foldl_removeKey_of_mem _ _ _ hmem] at hk1
      simp at hk1
    refine Eq.trans (lookupKey_foldl_invariant k _ _ _ ?_)
      (Eq.trans (lookupKey_foldl_invariant k _ _ _ ?_) rfl)
    · intro acc' p hp
      by_cases hc : (lookupKey p.1
          (((s.tasks.filter (fun p => decide (p.2.lastAccessed < now - h))).map
              Prod.fst).foldl (fun ts tid => removeKey tid ts) s.tasks)).isNone
          ∧ p.2.mtime < now - h ∧ rk p.1
      · have hpk : p.1 ≠ k := by
          intro he
          have hnone := hc.1
          rw [he, Option.isNone_iff_eq_none] at hnone
          rw [hnone] at hk1
          simp at hk1
        rw [if_pos hc]
        exact lookupKey_removeKey_ne k p.1 acc'.1 (Ne.symm hpk)
      · rw [if_neg hc]
    · intro acc' a ha
      have hak : a ≠ k := fun he => hnotin (he ▸ ha)
      cases hl : lookupKey a acc'.1 with
      | none => simp [hl]
      | some d =>
          by_cases hrk : rk a
          · simp [hl, hrk, lookupKey_removeKey_ne k a acc'.1 (Ne.symm hak)]
          · simp [hl, hrk]

/-- C8 (witness): the coupling statements applied at the concrete
download/sweep states. -/
theorem claim_C8_witness :
    lookupKey "t" ((deleteTask true "t" 3 dlState).2).tasks = none
    ∧ cleanupTaskAfterDownload false "t" dlState = dlState
    ∧ lookupKey "t1" (cleanupOldTasks (fun _ => true) (fun _ => true) 25 24
        sweepState).1.tasks = none
    ∧ lookupKey "t2" (cleanupOldTasks (fun _ => true) (fun _ => true) 25 24
        sweepState).1.dirs = lookupKey "t2" sweepState.dirs :=
  ⟨((claim_C8_delete_coupling.1 "t" 3 dlState
      { files := [("video_001.mp4", 100), ("videos_t.zip", 50)], mtime := 0 }
      rfl).1).1,
   (claim_C8_delete_coupling.2.1 "t" dlState
      { files := [("video_001.mp4", 100), ("videos_t.zip", 50)], mtime := 0 }
      rfl).2,
   claim_C8_delete_coupling.2.2.1 (fun _ => true) (fun _ => true) 25 24
      sweepState "t1" oldTask (by simp [sweepState])
      (by show (0 : Rat) < 25 - 24; norm_num),
   claim_C8_delete_coupling.2.2.2 (fun _ => true) (fun _ => true) 25 24
      sweepState "t2"
      (by
        have h1 : ((0 : Rat) < 25 - 24) := by norm_num
        have h2 : ¬ ((2 : Rat) < 25 - 24) := by norm_num
        simp [cleanupOldTasks, sweepState, oldTask, freshTask, lookupKey,
              removeKey, dirSize, h1, h2])⟩

end Uniqueizer
